import Mathlib

/-!
Verification of the chat catch-up/live reconciliation core of pidgin-chime
(`src/chat.c`).

The development is a shallow embedding of `chat.c` into Lean:

* JSON records become structures carrying the only fields the code reads
  (`MessageId`, `CreatedOn`, `Content`, and the `record` member of a live
  push event).
* The per-chat GLib hash table `chat->messages` becomes an association list
  with GLib's `g_hash_table_insert` semantics (a duplicate key keeps the
  stored key and replaces the stored value).
* The sorted side list built by `chime_complete_chat_setup` becomes a list
  of `msg_sort` wrappers built with GLib's `g_list_insert_sorted` semantics,
  specialised to the one comparator the code uses (`compare_ms`).
* The connection-level state (rooms, the `live_chats` registry, the juggernaut
  subscriptions, outstanding history requests, and the per-room account
  strings used as watermarks) becomes an explicit state record with a step
  function over join / leave / live-event / history-page events.

Functions of this repository that are not part of `src/chat.c`
(`chime_jugg_subscribe`/`chime_jugg_unsubscribe`, the cancellation behaviour
of `chime_queue_http_request` + `soup_session_cancel_message`, `parse_string`)
and external library semantics (GLib hash tables and sorted list insertion,
`g_time_val_from_iso8601`) are modelled from their documented contracts or
from the specification, as stated in the corresponding doc comments.
-/

/-- GTimeVal from GLib: seconds and microseconds, as filled in by
`g_time_val_from_iso8601`. -/
structure GTimeVal where
  tv_sec : Int
  tv_usec : Int
deriving DecidableEq, Repr

/-- The fields `chat.c` reads from the JSON record of a single message
(via `parse_string`): `MessageId`, `CreatedOn` and `Content`.  A `none`
field is a missing member. -/
structure JsonRec where
  messageId : Option String
  createdOn : Option String
  content : Option String
deriving DecidableEq, Repr

/-- A JSON node as handled by `chat.c`.  History page elements are nodes
whose top-level fields are the record fields; a live push event is a node
whose `record` member holds the message record (`chat_msg_cb` reads the
`record` member of the event, but stores the whole event node in the
messages table). -/
structure JsonNode where
  messageId : Option String
  createdOn : Option String
  content : Option String
  record : Option JsonRec
deriving DecidableEq, Repr

/-- View of a record as a plain node, used where `chat.c` passes the
`record` member of a live event to `chat_deliver_msg` (which only reads
`CreatedOn` and `Content`, so the view is observationally exact). -/
def JsonRec.toNode (r : JsonRec) : JsonNode :=
  ⟨r.messageId, r.createdOn, r.content, none⟩

/-! ### Timestamp parsing -/

def parseDigitsAux : List Char → Nat → Option Nat
  | [], acc => some acc
  | c :: cs, acc =>
    if c.isDigit then parseDigitsAux cs (acc * 10 + (c.toNat - 48)) else none

def parseDigits : List Char → Option Nat
  | [] => none
  | c :: cs => parseDigitsAux (c :: cs) 0

/-- Split a character list at the first dot. -/
def splitDot : List Char → List Char × Option (List Char)
  | [] => ([], none)
  | c :: cs =>
    if c = '.' then ([], some cs)
    else
      let r := splitDot cs
      (c :: r.1, r.2)

/-- Modelled from the spec: the TimestampCodec `parse` contract (§4.1).  The
code calls GLib's `g_time_val_from_iso8601`, which is outside this
repository; the spec describes the input as an ISO-8601-like string with a
second and an optional sub-second field, with parse failure non-fatal.  We
model the timestamp text as `"<seconds>"` or `"<seconds>.<subseconds>"` in
decimal, yielding a `GTimeVal`, and anything else as a parse failure.  All
claims depend only on parse success/failure and on the resulting
`(tv_sec, tv_usec)` pair, not on the concrete wire format. -/
def timeValFromIso8601 (s : String) : Option GTimeVal :=
  match splitDot s.toList with
  | (intPart, none) => (parseDigits intPart).map (fun n => ⟨(n : Int), 0⟩)
  | (intPart, some frac) =>
    match parseDigits intPart, parseDigits frac with
    | some n, some u => some ⟨(n : Int), (u : Int)⟩
    | _, _ => none

/-- The parsed `CreatedOn` timestamp of a node, if any: the composition of
`parse_string(node, "CreatedOn", ...)` and `g_time_val_from_iso8601` as used
by `insert_queued_msg` and `chat_deliver_msg`. -/
def parseCreatedOn (n : JsonNode) : Option GTimeVal :=
  match n.createdOn with
  | some s => timeValFromIso8601 s
  | none => none

/-! ### The messages table (`chat->messages`) -/

/-- The per-chat messages table, `GHashTable *messages`, keyed by message id
string. -/
abbrev Table := List (String × JsonNode)

/-- GLib `g_hash_table_insert` semantics on an association list: if the key
is already present, the stored key is kept and the stored value is replaced
by the new value (the old value is released); otherwise a new entry is
added. -/
def hashInsert : Table → String → JsonNode → Table
  | [], k, v => [(k, v)]
  | p :: ps, k, v =>
    if p.1 = k then (p.1, v) :: ps else p :: hashInsert ps k v

/-- GLib `g_hash_table_lookup` on the association list. -/
def hashLookup : Table → String → Option JsonNode
  | [], _ => none
  | p :: ps, k => if p.1 = k then some p.2 else hashLookup ps k

/-! ### Deliveries -/

/-- One call to `serv_got_chat_in`: the delivered text and timestamp.
`msgId` records the top-level `MessageId` of the node the delivery came
from; it is observational instrumentation for the per-id delivery counting
of the spec (the C call itself carries only text and time). -/
structure Delivery where
  msgId : Option String
  text : String
  time : Int
deriving DecidableEq, Repr

/-- `chat_deliver_msg` from `chat.c`: if `msg_time` is zero, recover the
time from `CreatedOn` (falling back to the wall clock `now`); deliver via
`serv_got_chat_in` only when the node has a `Content` member. -/
def chat_deliver_msg (now : Int) (node : JsonNode) (msg_time : Int) : List Delivery :=
  let t : Int :=
    if msg_time = 0 then
      match node.createdOn with
      | some s =>
        match timeValFromIso8601 s with
        | some tv => tv.tv_sec
        | none => now
      | none => now
    else msg_time
  match node.content with
  | some str => [⟨node.messageId, str, t⟩]
  | none => []

/-! ### History page records (`one_msg_cb`) and live-event buffering -/

/-- `one_msg_cb` from `chat.c`: a history page element is stored in the
messages table under its `MessageId`; an element without a `MessageId` is
dropped. -/
def one_msg_cb (tbl : Table) (node : JsonNode) : Table :=
  match node.messageId with
  | some id => hashInsert tbl id node
  | none => tbl

/-- The buffering branch of `chat_msg_cb` (taken while `chat->messages` is
non-NULL): the whole event node is stored under the `MessageId` of its
`record` member; an event whose record has no `MessageId` is dropped. -/
def bufferInsert (tbl : Table) (record : JsonRec) (node : JsonNode) : Table :=
  match record.messageId with
  | some id => hashInsert tbl id node
  | none => tbl

/-! ### Sorting and draining (`compare_ms`, `insert_queued_msg`,
`chime_complete_chat_setup`) -/

/-- `struct msg_sort` from `chat.c`. -/
structure MsgSort where
  tm : GTimeVal
  node : JsonNode
deriving DecidableEq, Repr

/-- `compare_ms` from `chat.c`: returns 1 when `a` is strictly later than
`b` (seconds, then microseconds), else 0. -/
def compare_ms (a b : MsgSort) : Int :=
  if a.tm.tv_sec > b.tm.tv_sec then 1
  else if a.tm.tv_sec = b.tm.tv_sec ∧ a.tm.tv_usec > b.tm.tv_usec then 1
  else 0

/-- GLib `g_list_insert_sorted`, specialised to the only comparator
`chat.c` passes it (`compare_ms`): the new element is inserted before the
first element that does not compare strictly below it, else at the end. -/
def g_list_insert_sorted (l : List MsgSort) (x : MsgSort) : List MsgSort :=
  match l with
  | [] => [x]
  | y :: ys =>
    if compare_ms x y ≤ 0 then x :: y :: ys
    else y :: g_list_insert_sorted ys x

/-- `insert_queued_msg` from `chat.c`, as the body of
`g_hash_table_foreach_remove`: a stored node with a parsable `CreatedOn` is
wrapped in a `msg_sort` and inserted into the sorted list; a node whose
`CreatedOn` is missing or unparsable is dropped (and iteration
continues). -/
def insert_queued_msg (node : JsonNode) (l : List MsgSort) : List MsgSort :=
  match node.createdOn with
  | none => l
  | some s =>
    match timeValFromIso8601 s with
    | none => l
    | some tv => g_list_insert_sorted l ⟨tv, node⟩

/-- The sorted list built by `chime_complete_chat_setup` from the messages
table, by iterating `insert_queued_msg` over the table entries (the hash
table's iteration order is arbitrary; theorems quantify over all entry
orders). -/
def build_sorted (tbl : Table) : List MsgSort :=
  tbl.foldl (fun l p => insert_queued_msg p.2 l) []

/-- The delivery loop of `chime_complete_chat_setup`: each sorted element is
passed to `chat_deliver_msg` with its parsed `tv_sec`; the second component
is the watermark write, taken from the `CreatedOn` string of the last list
element (`none` when the list is empty, i.e. no
`purple_account_set_string` call). -/
def drain (now : Int) : List MsgSort → List Delivery × Option String
  | [] => ([], none)
  | [ms] => (chat_deliver_msg now ms.node ms.tm.tv_sec, ms.node.createdOn)
  | ms :: ms2 :: rest =>
    let r := drain now (ms2 :: rest)
    (chat_deliver_msg now ms.node ms.tm.tv_sec ++ r.1, r.2)

/-- `chime_complete_chat_setup` from `chat.c`: sort the messages table, then
drain it in order, returning the deliveries and the watermark write (the
caller also clears `chat->messages`, modelled at the connection level). -/
def chime_complete_chat_setup (now : Int) (tbl : Table) : List Delivery × Option String :=
  drain now (build_sorted tbl)

/-- The deliveries of the drain, written as the concatenation of the
per-element `chat_deliver_msg` results, in list order. -/
def drainFlat (now : Int) : List MsgSort → List Delivery
  | [] => []
  | ms :: rest => chat_deliver_msg now ms.node ms.tm.tv_sec ++ drainFlat now rest

/-- The watermark chosen by the drain: the `CreatedOn` string of the last
element. -/
def lastWatermark : List MsgSort → Option String
  | [] => none
  | [ms] => ms.node.createdOn
  | _ :: ms2 :: rest => lastWatermark (ms2 :: rest)

/-! ### History request query parameters (`fetch_chat_messages`) -/

/-- The query fields `fetch_chat_messages` passes to
`soup_uri_set_query_from_fields`: always `max-results=50`; `after=<w>` when
the stored per-room account string (the watermark) is present and
non-empty; `next-token=<t>` when a continuation token is supplied.  Note
the watermark is read from the account on every call, whether or not a
continuation token is present. -/
def fetch_chat_messages_query (after : Option String) (next_token : Option String) :
    List (String × String) :=
  let opts_after : List (String × String) :=
    match after with
    | some a => if a ≠ "" then [("after", a)] else []
    | none => []
  let opts_token : List (String × String) :=
    match next_token with
    | some t => [("next-token", t)]
    | none => []
  ("max-results", "50") :: (opts_after ++ opts_token)

/-! ### Connection-level state

`struct chime_connection` as far as `chat.c` touches it: the room registry
`rooms_by_id`, the `live_chats` table, the juggernaut subscriptions, the
outstanding history requests, the per-room account strings (watermarks) and
the chat-id counter. -/

/-- A key of the `live_chats` hash table.  `chime_purple_join_chat` inserts
entries under `GUINT_TO_POINTER(chat_id)` (a small counter value);
`chime_destroy_chat` removes under `GUINT_TO_POINTER(room->id)`, where
`room->id` is the room-id *string* (note `"/rooms/%s/messages"` in
`fetch_chat_messages`), so the removal key is the string object's address
cast to an unsigned integer.  A heap address of a string object never
coincides with a small chat counter value, so the two key families are
modelled as disjoint constructors. -/
inductive LiveKey where
  | chatId (n : Nat)
  | strPtr (s : String)
deriving DecidableEq, Repr

/-- The session part of `struct chime_chat` relevant to the claims: the
purple chat id assigned at join and the messages table (`none` once the
chat has switched to live mode or before the table is created). -/
structure Sess where
  chatId : Nat
  messages : Option Table
deriving DecidableEq, Repr

/-- `struct chime_room` as far as `chat.c` touches it: the juggernaut
channel and the `room->chat` back pointer. -/
structure Room where
  channel : String
  chat : Option Sess
deriving DecidableEq, Repr

/-- The connection state.  `subs` are the live juggernaut subscriptions of
`chat_msg_cb`, as pairs of (channel, room id owning the subscribed chat);
`pending` are the room ids with an outstanding (uncancelled) history
request (`chat->msgs_msg` non-NULL); `watermarks` are the account strings
written with `purple_account_set_string`. -/
structure Cxn where
  roomsById : List (String × Room)
  liveChats : List (LiveKey × String)
  subs : List (String × String)
  pending : List String
  watermarks : List (String × String)
  chatIdCtr : Nat
deriving DecidableEq, Repr

/-- Lookup in `rooms_by_id`. -/
def findRoom : List (String × Room) → String → Option Room
  | [], _ => none
  | p :: ps, rid => if p.1 = rid then some p.2 else findRoom ps rid

/-- Assignment to `room->chat` for the room with the given id (room ids in
`rooms_by_id` are unique; updating every matching entry is equivalent). -/
def setChat : List (String × Room) → String → Option Sess → List (String × Room)
  | [], _, _ => []
  | p :: ps, rid, c =>
    if p.1 = rid then (p.1, ⟨p.2.channel, c⟩) :: setChat ps rid c
    else p :: setChat ps rid c

/-- Lookup in `live_chats`. -/
def lookupLive : List (LiveKey × String) → LiveKey → Option String
  | [], _ => none
  | p :: ps, k => if p.1 = k then some p.2 else lookupLive ps k

/-- `chime_destroy_chat` from `chat.c`, on the room owning the chat being
destroyed:

* `soup_session_cancel_message` on the in-flight history request, removing
  the room from the outstanding set.  Modelled from the spec: the
  cancellation contract of the HistoryFetcher (§4.3) — the request's
  callback is suppressed, so a later page event for this room finds no
  outstanding request.
* `chime_jugg_unsubscribe(cxn, room->channel, chat_msg_cb, room)`.
  Modelled from the spec: `unsubscribe(topic, handler)` (§4.4) removes the
  subscription of `chat_msg_cb` on the room's channel
  (`chime_jugg_unsubscribe` is not part of `src/`).
* `g_hash_table_remove(cxn->live_chats, GUINT_TO_POINTER(room->id))`:
  removal under the string-pointer key, exactly as the source does.
* `room->chat = NULL`, table and chat freed.

The watermark strings are untouched. -/
def chime_destroy_chat (cxn : Cxn) (rid : String) : Cxn :=
  match findRoom cxn.roomsById rid with
  | none => cxn
  | some room =>
    match room.chat with
    | none => cxn
    | some _ =>
      { roomsById := setChat cxn.roomsById rid none
        liveChats := cxn.liveChats.filter (fun e => e.1 ≠ LiveKey.strPtr rid)
        subs := cxn.subs.filter (fun sb => sb.1 ≠ room.channel)
        pending := cxn.pending.filter (fun r => r ≠ rid)
        watermarks := cxn.watermarks
        chatIdCtr := cxn.chatIdCtr }

/-- `chime_purple_join_chat` from `chat.c`: look up the requested room id
(the `"RoomId"` entry of the join data, `none` when absent); return
untouched when the room is unknown or already has a chat; otherwise
allocate the chat, assign the next chat id, register it in `live_chats`
under the chat-id key, create the (empty) messages table, subscribe
`chat_msg_cb` on the room's channel, and issue the first history request
(`fetch_chat_messages` with no continuation token). -/
def chime_purple_join_chat (cxn : Cxn) (roomId : Option String) : Cxn :=
  match roomId with
  | none => cxn
  | some rid =>
    match findRoom cxn.roomsById rid with
    | none => cxn
    | some room =>
      match room.chat with
      | some _ => cxn
      | none =>
        let chat_id := cxn.chatIdCtr + 1
        { roomsById := setChat cxn.roomsById rid (some ⟨chat_id, some []⟩)
          liveChats := (LiveKey.chatId chat_id, rid) :: cxn.liveChats
          subs := (room.channel, rid) :: cxn.subs
          pending := rid :: cxn.pending
          watermarks := cxn.watermarks
          chatIdCtr := chat_id }

/-- `chime_purple_chat_leave` from `chat.c`: look up the chat by purple
chat id in `live_chats` and destroy it.  (With no matching entry the C code
would dereference NULL; the claims only exercise the found case.) -/
def chime_purple_chat_leave (cxn : Cxn) (id : Nat) : Cxn :=
  match lookupLive cxn.liveChats (LiveKey.chatId id) with
  | some rid => chime_destroy_chat cxn rid
  | none => cxn

/-- `chat_msg_cb` from `chat.c`, dispatched to the chat of room `rid`: an
event without a `record` member is ignored; while `chat->messages` exists
the event is buffered (keyed by the record's `MessageId`, dropped without
one); once live, the record is delivered directly with the wall-clock
time. -/
def chat_msg_cb (now : Int) (cxn : Cxn) (rid : String) (node : JsonNode) :
    Cxn × List (String × Delivery) :=
  match findRoom cxn.roomsById rid with
  | none => (cxn, [])
  | some room =>
    match room.chat with
    | none => (cxn, [])
    | some s =>
      match node.record with
      | none => (cxn, [])
      | some record =>
        match s.messages with
        | some tbl =>
          ({ cxn with
             roomsById := setChat cxn.roomsById rid
               (some ⟨s.chatId, some (bufferInsert tbl record node)⟩) }, [])
        | none =>
          (cxn, (chat_deliver_msg now record.toNode now).map (fun d => (rid, d)))

/-- `fetch_msgs_cb` from `chat.c`, for a history page of room `rid`.  The
callback runs only while the request is outstanding (cancellation
suppresses it; modelled from the spec, §4.3).  It clears `chat->msgs_msg`,
stores each page element via `one_msg_cb`, then either issues the next page
request (continuation token present) or completes the catch-up: drain the
table sorted, deliver, write the watermark account string
(`"last-room-" ++ rid`) when the drain produced one, and clear
`chat->messages`. -/
def fetch_msgs_cb (now : Int) (cxn : Cxn) (rid : String) (msgs : List JsonNode)
    (next_token : Option String) : Cxn × List (String × Delivery) :=
  if rid ∈ cxn.pending then
    match findRoom cxn.roomsById rid with
    | none => (cxn, [])
    | some room =>
      match room.chat with
      | none => (cxn, [])
      | some s =>
        match s.messages with
        | none => (cxn, [])
        | some tbl =>
          let tbl2 := msgs.foldl one_msg_cb tbl
          match next_token with
          | some _ =>
            ({ cxn with
               roomsById := setChat cxn.roomsById rid (some ⟨s.chatId, some tbl2⟩) }, [])
          | none =>
            let r := chime_complete_chat_setup now tbl2
            ({ cxn with
               roomsById := setChat cxn.roomsById rid (some ⟨s.chatId, none⟩)
               pending := cxn.pending.filter (fun x => x ≠ rid)
               watermarks :=
                 match r.2 with
                 | some tm => ("last-room-" ++ rid, tm) :: cxn.watermarks
                 | none => cxn.watermarks },
             r.1.map (fun d => (rid, d)))
  else (cxn, [])

/-- Juggernaut dispatch of one push event on a channel: every live
subscription of `chat_msg_cb` on that channel receives the event. -/
def juggDispatch (now : Int) (cxn : Cxn) (ch : String) (node : JsonNode) :
    Cxn × List (String × Delivery) :=
  cxn.subs.foldl
    (fun acc sb =>
      if sb.1 = ch then
        let r := chat_msg_cb now acc.1 sb.2 node
        (r.1, acc.2 ++ r.2)
      else acc)
    (cxn, [])

/-- The external events driving the connection: a live push event on a
channel, a history page arriving for a room's outstanding request, a join
request, and a leave request. -/
inductive CxnEv where
  | jugg (ch : String) (node : JsonNode)
  | page (rid : String) (msgs : List JsonNode) (next_token : Option String)
  | join (roomId : Option String)
  | leave (id : Nat)
deriving DecidableEq, Repr

/-- One step of the connection, returning the new state and the deliveries
(each tagged with the room id of the session it came from). -/
def cxnStep (now : Int) (cxn : Cxn) : CxnEv → Cxn × List (String × Delivery)
  | .jugg ch node => juggDispatch now cxn ch node
  | .page rid msgs tok => fetch_msgs_cb now cxn rid msgs tok
  | .join r => (chime_purple_join_chat cxn r, [])
  | .leave id => (chime_purple_chat_leave cxn id, [])

/-- Run a sequence of events, concatenating the deliveries. -/
def runTrace (now : Int) (cxn : Cxn) : List CxnEv → Cxn × List (String × Delivery)
  | [] => (cxn, [])
  | e :: es =>
    let r := cxnStep now cxn e
    let r2 := runTrace now r.1 es
    (r2.1, r.2 ++ r2.2)

/-! ### The catch-up insertion interleaving (for the dedup claims) -/

/-- One catch-up-phase record arrival: a history page element
(`one_msg_cb`) or a live push event buffered by `chat_msg_cb` while
`chat->messages` exists. -/
inductive Ins where
  | hist (node : JsonNode)
  | liveBuf (node : JsonNode)
deriving DecidableEq, Repr

/-- Apply one catch-up arrival to the messages table, exactly as
`one_msg_cb` and the buffering branch of `chat_msg_cb` do. -/
def insStep (tbl : Table) : Ins → Table
  | .hist n => one_msg_cb tbl n
  | .liveBuf n =>
    match n.record with
    | none => tbl
    | some r => bufferInsert tbl r n

/-! ## Lemmas about the sorted drain -/

/-- The non-decreasing order established by `compare_ms`: `a` is at or
before `b` exactly when `compare_ms` does not rank it strictly later. -/
def msLe (a b : MsgSort) : Prop := compare_ms a b ≤ 0

lemma msLe_iff (a b : MsgSort) :
    msLe a b ↔ (a.tm.tv_sec < b.tm.tv_sec ∨
      (a.tm.tv_sec = b.tm.tv_sec ∧ a.tm.tv_usec ≤ b.tm.tv_usec)) := by
  unfold msLe compare_ms
  split_ifs with h1 h2 <;> constructor <;> intro h <;> omega

lemma msLe_total (a b : MsgSort) : msLe a b ∨ msLe b a := by
  rw [msLe_iff, msLe_iff]; omega

lemma msLe_trans {a b c : MsgSort} (h1 : msLe a b) (h2 : msLe b c) : msLe a c := by
  rw [msLe_iff] at *; omega

lemma not_msLe {a b : MsgSort} (h : ¬ msLe a b) : msLe b a := by
  rw [msLe_iff] at h ⊢
  omega

lemma insert_sorted_perm (l : List MsgSort) (x : MsgSort) :
    (g_list_insert_sorted l x).Perm (x :: l) := by
  induction l with
  | nil => simp [g_list_insert_sorted]
  | cons y ys ih =>
    unfold g_list_insert_sorted
    split
    · exact List.Perm.refl _
    · exact (ih.cons y).trans (List.Perm.swap x y ys)

lemma insert_sorted_mem {l : List MsgSort} {x z : MsgSort}
    (h : z ∈ g_list_insert_sorted l x) : z = x ∨ z ∈ l := by
  have := (insert_sorted_perm l x).mem_iff.mp h
  simpa using this

lemma insert_sorted_sorted {l : List MsgSort} (x : MsgSort)
    (h : l.Pairwise msLe) : (g_list_insert_sorted l x).Pairwise msLe := by
  induction l with
  | nil => simp [g_list_insert_sorted]
  | cons y ys ih =>
    rw [List.pairwise_cons] at h
    unfold g_list_insert_sorted
    split
    case isTrue hle =>
      refine List.pairwise_cons.mpr ⟨?_, List.pairwise_cons.mpr h⟩
      intro z hz
      rcases List.mem_cons.mp hz with rfl | hz
      · exact hle
      · exact msLe_trans hle (h.1 z hz)
    case isFalse hle =>
      refine List.pairwise_cons.mpr ⟨?_, ih h.2⟩
      intro z hz
      rcases insert_sorted_mem hz with rfl | hz
      · exact not_msLe hle
      · exact h.1 z hz

/-- Does the node contribute an ordering entry (parsable `CreatedOn`)? -/
def parsableB (n : JsonNode) : Bool := (parseCreatedOn n).isSome

/-- `insert_queued_msg`, restated through `parseCreatedOn`. -/
lemma insert_queued_msg_eq (n : JsonNode) (l : List MsgSort) :
    insert_queued_msg n l =
      match parseCreatedOn n with
      | some tv => g_list_insert_sorted l ⟨tv, n⟩
      | none => l := by
  cases hc : n.createdOn with
  | none => simp [insert_queued_msg, parseCreatedOn, hc]
  | some s =>
    cases ht : timeValFromIso8601 s with
    | none => simp [insert_queued_msg, parseCreatedOn, hc, ht]
    | some tv => simp [insert_queued_msg, parseCreatedOn, hc, ht]

lemma insert_queued_pairwise {l : List MsgSort} (n : JsonNode)
    (h : l.Pairwise msLe) : (insert_queued_msg n l).Pairwise msLe := by
  rw [insert_queued_msg_eq]
  cases parseCreatedOn n with
  | none => exact h
  | some tv => exact insert_sorted_sorted _ h

lemma build_sorted_go_pairwise (tbl : Table) :
    ∀ acc : List MsgSort, acc.Pairwise msLe →
      (tbl.foldl (fun l p => insert_queued_msg p.2 l) acc).Pairwise msLe := by
  induction tbl with
  | nil => intro acc h; exact h
  | cons p ps ih =>
    intro acc h
    exact ih _ (insert_queued_pairwise _ h)

/-- The sorted list built from the table is non-decreasing. -/
lemma build_sorted_pairwise (tbl : Table) : (build_sorted tbl).Pairwise msLe :=
  build_sorted_go_pairwise tbl [] List.Pairwise.nil

lemma insert_queued_perm (n : JsonNode) (l : List MsgSort) :
    ((insert_queued_msg n l).map MsgSort.node).Perm
      ((if parsableB n then [n] else []) ++ l.map MsgSort.node) := by
  rw [insert_queued_msg_eq]
  unfold parsableB
  cases parseCreatedOn n with
  | none => simp
  | some tv =>
    simp only [Option.isSome_some, if_true, List.singleton_append]
    exact (insert_sorted_perm l ⟨tv, n⟩).map MsgSort.node

lemma build_sorted_go_perm (tbl : Table) :
    ∀ acc : List MsgSort,
      ((tbl.foldl (fun l p => insert_queued_msg p.2 l) acc).map MsgSort.node).Perm
        (acc.map MsgSort.node ++ (tbl.map Prod.snd).filter parsableB) := by
  induction tbl with
  | nil => intro acc; simp
  | cons p ps ih =>
    intro acc
    refine (ih (insert_queued_msg p.2 acc)).trans ?_
    have hperm := insert_queued_perm p.2 acc
    cases hp : parsableB p.2 with
    | false =>
      rw [hp] at hperm
      simp only [Bool.false_eq_true, if_false, List.nil_append] at hperm
      simp only [List.map_cons, List.filter_cons, hp, Bool.false_eq_true, if_false]
      exact hperm.append_right _
    | true =>
      rw [hp] at hperm
      simp only [if_true, List.singleton_append] at hperm
      simp only [List.map_cons, List.filter_cons, hp, if_true]
      refine (hperm.append_right _).trans ?_
      exact List.perm_middle.symm

/-- The nodes of the sorted list are exactly the stored nodes with a
parsable `CreatedOn`, as a permutation. -/
lemma build_sorted_perm (tbl : Table) :
    ((build_sorted tbl).map MsgSort.node).Perm
      ((tbl.map Prod.snd).filter parsableB) := by
  have := build_sorted_go_perm tbl []
  simpa [build_sorted] using this

lemma insert_queued_tm {l : List MsgSort} {n : JsonNode} {ms : MsgSort}
    (hl : ∀ z ∈ l, parseCreatedOn z.node = some z.tm)
    (h : ms ∈ insert_queued_msg n l) : parseCreatedOn ms.node = some ms.tm := by
  rw [insert_queued_msg_eq] at h
  cases hp : parseCreatedOn n with
  | none => rw [hp] at h; exact hl ms h
  | some tv =>
    rw [hp] at h
    rcases insert_sorted_mem h with rfl | h
    · exact hp
    · exact hl ms h

/-- Every element of the sorted list carries the parsed `CreatedOn` of its
node (in particular, each of these nodes has a `CreatedOn` string). -/
lemma build_sorted_tm (tbl : Table) :
    ∀ ms ∈ build_sorted tbl, parseCreatedOn ms.node = some ms.tm := by
  unfold build_sorted
  suffices h : ∀ acc : List MsgSort, (∀ z ∈ acc, parseCreatedOn z.node = some z.tm) →
      ∀ ms ∈ tbl.foldl (fun l p => insert_queued_msg p.2 l) acc,
        parseCreatedOn ms.node = some ms.tm by
    exact h [] (by simp)
  induction tbl with
  | nil => intro acc hacc ms hms; exact hacc ms hms
  | cons p ps ih =>
    intro acc hacc ms hms
    exact ih _ (fun z hz => insert_queued_tm hacc hz) ms hms

lemma drain_eq (now : Int) : ∀ l : List MsgSort,
    drain now l = (drainFlat now l, lastWatermark l) := by
  intro l
  induction l with
  | nil => rfl
  | cons ms rest ih =>
    cases rest with
    | nil => simp [drain, drainFlat, lastWatermark]
    | cons ms2 r2 =>
      simp only [drain, drainFlat, lastWatermark, ih]

lemma lastWatermark_append (l : List MsgSort) (ms : MsgSort) :
    lastWatermark (l ++ [ms]) = ms.node.createdOn := by
  induction l with
  | nil => rfl
  | cons a as ih =>
    cases as with
    | nil => simp [lastWatermark]
    | cons b bs => simpa [lastWatermark] using ih

lemma drainFlat_append (now : Int) (l1 l2 : List MsgSort) :
    drainFlat now (l1 ++ l2) = drainFlat now l1 ++ drainFlat now l2 := by
  induction l1 with
  | nil => rfl
  | cons a as ih => simp [drainFlat, ih]

lemma complete_setup_fst (now : Int) (tbl : Table) :
    (chime_complete_chat_setup now tbl).1 = drainFlat now (build_sorted tbl) := by
  rw [chime_complete_chat_setup, drain_eq]

lemma complete_setup_snd (now : Int) (tbl : Table) :
    (chime_complete_chat_setup now tbl).2 = lastWatermark (build_sorted tbl) := by
  rw [chime_complete_chat_setup, drain_eq]

/-! ## Lemmas about the messages table -/

lemma hashLookup_insert (tbl : Table) (k : String) (v : JsonNode) :
    hashLookup (hashInsert tbl k v) k = some v := by
  induction tbl with
  | nil => simp [hashInsert, hashLookup]
  | cons p ps ih =>
    unfold hashInsert
    split
    case isTrue h => simp [hashLookup, h]
    case isFalse h => simp [hashLookup, h, ih]

lemma mem_keys_hashInsert {tbl : Table} {k x : String} {v : JsonNode}
    (h : x ∈ (hashInsert tbl k v).map Prod.fst) :
    x ∈ tbl.map Prod.fst ∨ x = k := by
  induction tbl with
  | nil =>
    rw [hashInsert] at h
    simp only [List.map_cons, List.map_nil] at h
    exact Or.inr (by simpa using h)
  | cons p ps ih =>
    rw [hashInsert] at h
    split at h
    case isTrue heq =>
      rw [List.map_cons] at h ⊢
      exact Or.inl h
    case isFalse heq =>
      rw [List.map_cons] at h
      rcases List.mem_cons.mp h with h1 | h1
      · exact Or.inl (by rw [List.map_cons, h1]; exact List.mem_cons_self _ _)
      · rcases ih h1 with h2 | h2
        · exact Or.inl (by rw [List.map_cons]; exact List.mem_cons_of_mem _ h2)
        · exact Or.inr h2

/-- Well-formedness of the messages table: keys are pairwise distinct, and
every stored node's own top-level `MessageId` is either absent or agrees
with the key it is stored under. -/
def tableWF (tbl : Table) : Prop :=
  (tbl.map Prod.fst).Nodup ∧
  ∀ p ∈ tbl, p.2.messageId = none ∨ p.2.messageId = some p.1

lemma tableWF_nil : tableWF [] := by simp [tableWF]

lemma tableWF_hashInsert {tbl : Table} {k : String} {v : JsonNode}
    (h : tableWF tbl) (hv : v.messageId = none ∨ v.messageId = some k) :
    tableWF (hashInsert tbl k v) := by
  induction tbl with
  | nil => simpa [tableWF, hashInsert] using hv
  | cons p ps ih =>
    obtain ⟨hnd, hval⟩ := h
    rw [List.map_cons, List.nodup_cons] at hnd
    unfold hashInsert
    split
    case isTrue heq =>
      subst heq
      refine ⟨by simpa using hnd, ?_⟩
      intro q hq
      rcases List.mem_cons.mp hq with rfl | hq
      · exact hv
      · exact hval q (List.mem_cons_of_mem _ hq)
    case isFalse heq =>
      have hps : tableWF ps := ⟨hnd.2, fun q hq => hval q (List.mem_cons_of_mem _ hq)⟩
      obtain ⟨ihnd, ihval⟩ := ih hps
      constructor
      · rw [List.map_cons, List.nodup_cons]
        refine ⟨?_, ihnd⟩
        intro hmem
        rcases mem_keys_hashInsert hmem with h1 | h1
        · exact hnd.1 h1
        · exact heq h1
      · intro q hq
        rcases List.mem_cons.mp hq with rfl | hq
        · exact hval q (List.mem_cons_self _ _)
        · exact ihval q hq

lemma tableWF_one_msg_cb {tbl : Table} (h : tableWF tbl) (n : JsonNode) :
    tableWF (one_msg_cb tbl n) := by
  unfold one_msg_cb
  cases hid : n.messageId with
  | none => exact h
  | some id => exact tableWF_hashInsert h (Or.inr hid)

/-- The well-formedness hypothesis on live push events: whenever the event's
record carries a `MessageId`, the event node's own top-level `MessageId` is
absent or identical to it. -/
def wfLiveEvent (n : JsonNode) : Prop :=
  ∀ r id, n.record = some r → r.messageId = some id →
    n.messageId = none ∨ n.messageId = some id

lemma tableWF_insStep {tbl : Table} (h : tableWF tbl) (e : Ins)
    (he : ∀ n, e = Ins.liveBuf n → wfLiveEvent n) :
    tableWF (insStep tbl e) := by
  cases e with
  | hist n => exact tableWF_one_msg_cb h n
  | liveBuf n =>
    cases hr : n.record with
    | none => simp only [insStep, hr]; exact h
    | some r =>
      simp only [insStep, hr]
      cases hid : r.messageId with
      | none => simp only [bufferInsert, hid]; exact h
      | some id =>
        simp only [bufferInsert, hid]
        exact tableWF_hashInsert h (he n rfl r id hr hid)

lemma tableWF_foldl {evs : List Ins} {tbl : Table} (h : tableWF tbl)
    (he : ∀ n, Ins.liveBuf n ∈ evs → wfLiveEvent n) :
    tableWF (evs.foldl insStep tbl) := by
  induction evs generalizing tbl with
  | nil => exact h
  | cons e es ih =>
    rw [List.foldl_cons]
    refine ih ?_ (fun n hn => he n (List.mem_cons_of_mem _ hn))
    refine tableWF_insStep h e (fun n hn => ?_)
    subst hn
    exact he n (List.mem_cons_self _ _)

/-- In a well-formed table, at most one stored node carries any given
top-level `MessageId`. -/
lemma tableWF_count {tbl : Table} (h : tableWF tbl) (id : String) :
    tbl.countP (fun p => p.2.messageId == some id) ≤ 1 := by
  obtain ⟨hnd, hval⟩ := h
  have hmono : tbl.countP (fun p => p.2.messageId == some id) ≤
      tbl.countP (fun p => p.1 == id) := by
    refine List.countP_mono_left ?_
    intro p hp hmid
    rcases hval p hp with h1 | h1
    · rw [h1] at hmid; simp at hmid
    · rw [h1] at hmid
      simp only [beq_iff_eq, Option.some.injEq] at hmid
      simp [hmid]
  refine hmono.trans ?_
  have : tbl.countP (fun p => p.1 == id) = (tbl.map Prod.fst).count id := by
    rw [List.count_eq_countP, List.countP_map]
    rfl
  rw [this]
  exact List.nodup_iff_count_le_one.mp hnd id

/-! ## Counting deliveries -/

lemma chat_deliver_length (now t : Int) (n : JsonNode) :
    (chat_deliver_msg now n t).length ≤ 1 := by
  unfold chat_deliver_msg
  cases n.content <;> simp

lemma countP_chat_deliver_ne (now t : Int) {n : JsonNode} {id : String}
    (h : ¬ n.messageId = some id) :
    (chat_deliver_msg now n t).countP (fun d => d.msgId == some id) = 0 := by
  unfold chat_deliver_msg
  cases n.content <;> simp [List.countP_cons, h]

lemma countP_drainFlat (now : Int) (l : List MsgSort) (id : String) :
    (drainFlat now l).countP (fun d => d.msgId == some id) ≤
      l.countP (fun ms => ms.node.messageId == some id) := by
  induction l with
  | nil => simp [drainFlat]
  | cons ms rest ih =>
    rw [drainFlat, List.countP_append, List.countP_cons]
    by_cases hh : ms.node.messageId = some id
    · have h1 : (chat_deliver_msg now ms.node ms.tm.tv_sec).countP
          (fun d => d.msgId == some id) ≤ 1 :=
        (List.countP_le_length _).trans (chat_deliver_length now ms.tm.tv_sec ms.node)
      simp only [hh, beq_self_eq_true, if_true]
      omega
    · have h1 := @countP_chat_deliver_ne now ms.tm.tv_sec ms.node id hh
      have h2 : (ms.node.messageId == some id) = false := by simpa using hh
      rw [h2]
      simp only [Bool.false_eq_true, if_false]
      omega

/-! ## Lemmas about the connection state -/

lemma findRoom_setChat_self (rooms : List (String × Room)) (rid : String)
    (c : Option Sess) :
    findRoom (setChat rooms rid c) rid =
      (findRoom rooms rid).map (fun r => ⟨r.channel, c⟩) := by
  induction rooms with
  | nil => rfl
  | cons p ps ih =>
    rw [setChat]
    split
    case isTrue h => rw [findRoom, if_pos h, findRoom, if_pos h]; rfl
    case isFalse h => rw [findRoom, if_neg h, findRoom, if_neg h, ih]

lemma findRoom_setChat_ne (rooms : List (String × Room)) {rid rid2 : String}
    (c : Option Sess) (h : rid2 ≠ rid) :
    findRoom (setChat rooms rid c) rid2 = findRoom rooms rid2 := by
  induction rooms with
  | nil => rfl
  | cons p ps ih =>
    rw [setChat]
    split
    case isTrue h1 =>
      have h2 : ¬ ((p.1 : String) = rid2) := by rw [h1]; exact fun hh => h hh.symm
      rw [findRoom, if_neg h2, findRoom, if_neg h2, ih]
    case isFalse h1 =>
      rw [findRoom, findRoom]
      split
      · rfl
      · exact ih

/-- A room whose chat has been torn down (`room->chat == NULL`). -/
def deadRoom (rooms : List (String × Room)) (rid : String) : Prop :=
  ∃ room, findRoom rooms rid = some room ∧ room.chat = none

/-- `chat_msg_cb` either leaves the connection unchanged or only reassigns
the dispatched room's chat; all its deliveries are tagged with the
dispatched room. -/
lemma chat_msg_cb_shape (now : Int) (cxn : Cxn) (rid2 : String) (node : JsonNode) :
    ((chat_msg_cb now cxn rid2 node).1.roomsById = cxn.roomsById ∨
      ∃ s2, (chat_msg_cb now cxn rid2 node).1.roomsById =
        setChat cxn.roomsById rid2 (some s2)) ∧
    (∀ d ∈ (chat_msg_cb now cxn rid2 node).2, d.1 = rid2) := by
  unfold chat_msg_cb
  cases hfr : findRoom cxn.roomsById rid2 with
  | none => exact ⟨Or.inl rfl, by simp⟩
  | some room =>
    dsimp only
    cases hch : room.chat with
    | none => exact ⟨Or.inl rfl, by simp⟩
    | some s =>
      dsimp only
      cases hrec : node.record with
      | none => exact ⟨Or.inl rfl, by simp⟩
      | some record =>
        dsimp only
        cases hms : s.messages with
        | some tbl => exact ⟨Or.inr ⟨_, rfl⟩, by simp⟩
        | none =>
          refine ⟨Or.inl rfl, ?_⟩
          intro d hd
          simp only [List.mem_map] at hd
          obtain ⟨d0, _, rfl⟩ := hd
          rfl

/-- Dispatching to a room with no chat is a no-op. -/
lemma chat_msg_cb_dead {cxn : Cxn} {rid : String} (now : Int) (node : JsonNode)
    {room : Room} (hfr : findRoom cxn.roomsById rid = some room)
    (hch : room.chat = none) :
    chat_msg_cb now cxn rid node = (cxn, []) := by
  unfold chat_msg_cb
  rw [hfr]
  dsimp only
  rw [hch]

/-- A history page for a room with no chat (or with no outstanding request)
changes nothing and delivers nothing. -/
lemma fetch_msgs_cb_dead {cxn : Cxn} {rid : String} (now : Int)
    (msgs : List JsonNode) (tok : Option String) {room : Room}
    (hfr : findRoom cxn.roomsById rid = some room) (hch : room.chat = none) :
    fetch_msgs_cb now cxn rid msgs tok = (cxn, []) := by
  unfold fetch_msgs_cb
  split
  · rw [hfr]
    dsimp only
    rw [hch]
  · rfl

lemma fetch_msgs_cb_shape (now : Int) (cxn : Cxn) (rid2 : String)
    (msgs : List JsonNode) (tok : Option String) :
    ((fetch_msgs_cb now cxn rid2 msgs tok).1.roomsById = cxn.roomsById ∨
      ∃ s2, (fetch_msgs_cb now cxn rid2 msgs tok).1.roomsById =
        setChat cxn.roomsById rid2 (some s2)) ∧
    (∀ d ∈ (fetch_msgs_cb now cxn rid2 msgs tok).2, d.1 = rid2) := by
  unfold fetch_msgs_cb
  split
  case isFalse => exact ⟨Or.inl rfl, by simp⟩
  case isTrue =>
    cases hfr : findRoom cxn.roomsById rid2 with
    | none => exact ⟨Or.inl rfl, by simp⟩
    | some room =>
      dsimp only
      cases hch : room.chat with
      | none => exact ⟨Or.inl rfl, by simp⟩
      | some s =>
        dsimp only
        cases hms : s.messages with
        | none => exact ⟨Or.inl rfl, by simp⟩
        | some tbl =>
          dsimp only
          cases tok with
          | some t => exact ⟨Or.inr ⟨_, rfl⟩, by simp⟩
          | none =>
            refine ⟨Or.inr ⟨_, rfl⟩, ?_⟩
            intro d hd
            simp only [List.mem_map] at hd
            obtain ⟨d0, _, rfl⟩ := hd
            rfl

lemma join_shape (cxn : Cxn) (r : Option String) :
    (chime_purple_join_chat cxn r).roomsById = cxn.roomsById ∨
      ∃ rid2 s2, r = some rid2 ∧
        (chime_purple_join_chat cxn r).roomsById =
          setChat cxn.roomsById rid2 (some s2) := by
  unfold chime_purple_join_chat
  cases r with
  | none => exact Or.inl rfl
  | some rid2 =>
    dsimp only
    cases hfr : findRoom cxn.roomsById rid2 with
    | none => exact Or.inl rfl
    | some room =>
      dsimp only
      cases hch : room.chat with
      | some s => exact Or.inl rfl
      | none => exact Or.inr ⟨rid2, _, rfl, rfl⟩

lemma destroy_shape (cxn : Cxn) (rid2 : String) :
    (chime_destroy_chat cxn rid2).roomsById = cxn.roomsById ∨
      (chime_destroy_chat cxn rid2).roomsById = setChat cxn.roomsById rid2 none := by
  unfold chime_destroy_chat
  cases hfr : findRoom cxn.roomsById rid2 with
  | none => exact Or.inl rfl
  | some room =>
    dsimp only
    cases hch : room.chat with
    | none => exact Or.inl rfl
    | some s => exact Or.inr rfl

/-- Destroying a room whose chat is already gone is a no-op. -/
lemma destroy_dead {cxn : Cxn} {rid : String} {room : Room}
    (hfr : findRoom cxn.roomsById rid = some room) (hch : room.chat = none) :
    chime_destroy_chat cxn rid = cxn := by
  unfold chime_destroy_chat
  rw [hfr]
  dsimp only
  rw [hch]

lemma deadRoom_setChat_other {rooms : List (String × Room)} {rid rid2 : String}
    (c : Option Sess) (hd : deadRoom rooms rid) (hne : rid ≠ rid2) :
    deadRoom (setChat rooms rid2 c) rid := by
  obtain ⟨room, hfr, hch⟩ := hd
  exact ⟨room, by rw [findRoom_setChat_ne _ _ hne, hfr], hch⟩

/-- Explicit form of `chime_destroy_chat` on a live chat. -/
lemma destroy_eq {cxn : Cxn} {rid : String} {room : Room} {s : Sess}
    (hfr : findRoom cxn.roomsById rid = some room) (hch : room.chat = some s) :
    chime_destroy_chat cxn rid =
      { roomsById := setChat cxn.roomsById rid none
        liveChats := cxn.liveChats.filter (fun e => e.1 ≠ LiveKey.strPtr rid)
        subs := cxn.subs.filter (fun sb => sb.1 ≠ room.channel)
        pending := cxn.pending.filter (fun r => r ≠ rid)
        watermarks := cxn.watermarks
        chatIdCtr := cxn.chatIdCtr } := by
  unfold chime_destroy_chat
  rw [hfr]
  dsimp only
  rw [hch]

/-- Dispatching a live event over any subscription list preserves a dead
room and tags every delivery with the dispatched room. -/
lemma juggFold_dead (now : Int) {rid : String} (ch : String) (node : JsonNode) :
    ∀ (sbs : List (String × String)) (acc : Cxn × List (String × Delivery)),
      deadRoom acc.1.roomsById rid → (∀ d ∈ acc.2, d.1 ≠ rid) →
      deadRoom ((sbs.foldl
        (fun acc sb =>
          if sb.1 = ch then
            let r := chat_msg_cb now acc.1 sb.2 node
            (r.1, acc.2 ++ r.2)
          else acc) acc).1.roomsById) rid ∧
      ∀ d ∈ (sbs.foldl
        (fun acc sb =>
          if sb.1 = ch then
            let r := chat_msg_cb now acc.1 sb.2 node
            (r.1, acc.2 ++ r.2)
          else acc) acc).2, d.1 ≠ rid := by
  intro sbs
  induction sbs with
  | nil => intro acc h1 h2; exact ⟨h1, h2⟩
  | cons sb rest ih =>
    intro acc h1 h2
    rw [List.foldl_cons]
    by_cases hc : sb.1 = ch
    · rw [if_pos hc]
      refine ih _ ?_ ?_
      · by_cases hr : sb.2 = rid
        · obtain ⟨room, hfr, hch⟩ := h1
          rw [hr, chat_msg_cb_dead now node hfr hch]
          exact ⟨room, hfr, hch⟩
        · rcases (chat_msg_cb_shape now acc.1 sb.2 node).1 with hsh | ⟨s2, hsh⟩
          · rw [hsh]; exact h1
          · rw [hsh]
            exact deadRoom_setChat_other _ h1 (fun he => hr he.symm)
      · intro d hd
        rcases List.mem_append.mp hd with hd1 | hd1
        · exact h2 d hd1
        · by_cases hr : sb.2 = rid
          · obtain ⟨room, hfr, hch⟩ := h1
            rw [hr, chat_msg_cb_dead now node hfr hch] at hd1
            simp at hd1
          · rw [(chat_msg_cb_shape now acc.1 sb.2 node).2 d hd1]
            exact hr
    · rw [if_neg hc]
      exact ih _ h1 h2

/-- One connection step preserves a dead room and produces no delivery
tagged with it, as long as the step is not a fresh join of that very
room. -/
lemma cxnStep_dead (now : Int) {cxn : Cxn} {rid : String} (e : CxnEv)
    (hd : deadRoom cxn.roomsById rid) (hne : e ≠ CxnEv.join (some rid)) :
    deadRoom (cxnStep now cxn e).1.roomsById rid ∧
      ∀ d ∈ (cxnStep now cxn e).2, d.1 ≠ rid := by
  cases e with
  | jugg ch node =>
    exact juggFold_dead now ch node cxn.subs (cxn, []) hd (by simp)
  | page rid2 msgs tok =>
    by_cases hr : rid2 = rid
    · subst hr
      obtain ⟨room, hfr, hch⟩ := hd
      have hz := fetch_msgs_cb_dead now msgs tok hfr hch
      rw [show cxnStep now cxn (CxnEv.page rid2 msgs tok) =
        fetch_msgs_cb now cxn rid2 msgs tok from rfl, hz]
      exact ⟨⟨room, hfr, hch⟩, by simp⟩
    · constructor
      · rcases (fetch_msgs_cb_shape now cxn rid2 msgs tok).1 with hsh | ⟨s2, hsh⟩
        · rw [show (cxnStep now cxn (CxnEv.page rid2 msgs tok)).1 =
            (fetch_msgs_cb now cxn rid2 msgs tok).1 from rfl, hsh]
          exact hd
        · rw [show (cxnStep now cxn (CxnEv.page rid2 msgs tok)).1 =
            (fetch_msgs_cb now cxn rid2 msgs tok).1 from rfl, hsh]
          exact deadRoom_setChat_other _ hd (fun he => hr he.symm)
      · intro d hdm
        rw [(fetch_msgs_cb_shape now cxn rid2 msgs tok).2 d hdm]
        exact hr
  | join r =>
    refine ⟨?_, by simp [cxnStep]⟩
    rcases join_shape cxn r with hsh | ⟨rid2, s2, hr, hsh⟩
    · rw [show (cxnStep now cxn (CxnEv.join r)).1 =
        chime_purple_join_chat cxn r from rfl, hsh]
      exact hd
    · have hner : rid ≠ rid2 := by
        intro he
        exact hne (by rw [hr, ← he])
      rw [show (cxnStep now cxn (CxnEv.join r)).1 =
        chime_purple_join_chat cxn r from rfl, hsh]
      exact deadRoom_setChat_other _ hd hner
  | leave id =>
    refine ⟨?_, by simp [cxnStep]⟩
    rw [show (cxnStep now cxn (CxnEv.leave id)).1 =
      chime_purple_chat_leave cxn id from rfl]
    unfold chime_purple_chat_leave
    cases hlook : lookupLive cxn.liveChats (LiveKey.chatId id) with
    | none => exact hd
    | some rid2 =>
      dsimp only
      by_cases hr : rid2 = rid
      · subst hr
        obtain ⟨room, hfr, hch⟩ := hd
        rw [destroy_dead hfr hch]
        exact ⟨room, hfr, hch⟩
      · rcases destroy_shape cxn rid2 with hsh | hsh
        · rw [hsh]; exact hd
        · rw [hsh]
          exact deadRoom_setChat_other _ hd (fun he => hr he.symm)

/-- Any sequence of events that does not re-join a torn-down room keeps the
room dead and never produces a delivery tagged with it. -/
lemma runTrace_dead (now : Int) {rid : String} :
    ∀ (evs : List CxnEv) (cxn : Cxn), deadRoom cxn.roomsById rid →
      CxnEv.join (some rid) ∉ evs →
      deadRoom (runTrace now cxn evs).1.roomsById rid ∧
        ∀ d ∈ (runTrace now cxn evs).2, d.1 ≠ rid := by
  intro evs
  induction evs with
  | nil => intro cxn hd _; exact ⟨hd, by simp [runTrace]⟩
  | cons e es ih =>
    intro cxn hd hmem
    have hne : e ≠ CxnEv.join (some rid) := by
      intro he
      exact hmem (he ▸ List.mem_cons_self _ _)
    have hstep := cxnStep_dead now e hd hne
    have hrest := ih (cxnStep now cxn e).1 hstep.1
      (fun hm => hmem (List.mem_cons_of_mem _ hm))
    rw [runTrace]
    refine ⟨hrest.1, ?_⟩
    intro d hdm
    rcases List.mem_append.mp hdm with h1 | h1
    · exact hstep.2 d h1
    · exact hrest.2 d h1

/-! ## Concrete inputs used in counterexamples and witnesses -/

/-- A history page record: id `"a"`, timestamp `"10"`, content `"hello"`. -/
def recA : JsonNode := ⟨some "a", some "10", some "hello", none⟩

/-- A live push event whose `record` member carries the same message id
`"a"` (and no top-level fields of its own, as a push wrapper). -/
def wrapA : JsonNode := ⟨none, none, none, some ⟨some "a", some "10", some "hello"⟩⟩

/-- The `msg_sort` wrapper `build_sorted` makes for `recA`. -/
def msA : MsgSort := ⟨⟨10, 0⟩, recA⟩

/-- A record with a parsable timestamp but no `Content` member. -/
def msB : MsgSort := ⟨⟨5, 0⟩, ⟨some "b", some "5", none, none⟩⟩

/-- A record with no `MessageId`. -/
def noId : JsonNode := ⟨none, some "3", some "x", none⟩

/-- Two same-id records with different payloads. -/
def nA1 : JsonNode := ⟨some "a", some "1", some "first", none⟩

/-- Second record with id "a". -/
def nA2 : JsonNode := ⟨some "a", some "1", some "second", none⟩

/-- A connection with one known room `"R"` on channel `"ch"`, no chat. -/
def cxnR : Cxn := ⟨[("R", ⟨"ch", none⟩)], [], [], [], [], 0⟩

/-- Join room `"R"`, receive the one-record history page (no continuation
token, so catch-up completes and delivers id `"a"`), then receive a live
push event for the same id after the switch to live mode. -/
def evsC1 : List CxnEv :=
  [CxnEv.join (some "R"), CxnEv.page "R" [recA] none, CxnEv.jugg "ch" wrapA]

/-! ## The claims -/

/-- C1 (counterexample): the claim says each message id is delivered
exactly once per session for every interleaving of history records and
live events, including live events after the switch to live mode.  It is
false: after catch-up has delivered id `"a"` from the history page, a live
push event carrying the same id is delivered again by `chat_msg_cb`
(`chat->messages` is NULL, so no dedup happens), so id `"a"` is delivered
twice in this session. -/
theorem C1_counterexample :
    ((runTrace 99 cxnR evsC1).2.countP (fun d => d.2.msgId == some "a")) = 2 := by
  decide

/-- C1 (amended): each message id is delivered at most once by the catch-up
drain, for every interleaving of history records (`one_msg_cb`) and live
events buffered during catch-up (`chat_msg_cb`), provided each live
wrapper's own top-level `MessageId` is absent or equal to its record's id.
Live events arriving after the switch to live mode are delivered without
any dedup against catch-up deliveries. -/
theorem C1_catchup_dedup (now : Int) (evs : List Ins) (id : String)
    (hWF : ∀ n, Ins.liveBuf n ∈ evs → wfLiveEvent n) :
    ((chime_complete_chat_setup now (evs.foldl insStep [])).1).countP
      (fun d => d.msgId == some id) ≤ 1 := by
  have hwf := tableWF_foldl tableWF_nil hWF
  rw [complete_setup_fst]
  refine (countP_drainFlat now _ id).trans ?_
  have h1 : (build_sorted (evs.foldl insStep [])).countP
      (fun ms => ms.node.messageId == some id)
      = ((build_sorted (evs.foldl insStep [])).map MsgSort.node).countP
        (fun n => n.messageId == some id) := by
    rw [List.countP_map]; rfl
  rw [h1, (build_sorted_perm (evs.foldl insStep [])).countP_eq]
  rw [List.countP_filter]
  have h2 : ((evs.foldl insStep []).map Prod.snd).countP
      (fun n => (n.messageId == some id) && parsableB n) ≤
      ((evs.foldl insStep []).map Prod.snd).countP
      (fun n => n.messageId == some id) := by
    refine List.countP_mono_left ?_
    intro n _ hn
    exact ((Bool.and_eq_true _ _).mp hn).1
  refine h2.trans ?_
  have h3 : ((evs.foldl insStep []).map Prod.snd).countP
      (fun n => n.messageId == some id)
      = (evs.foldl insStep []).countP (fun p => p.2.messageId == some id) := by
    rw [List.countP_map]; rfl
  rw [h3]
  exact tableWF_count hwf id

/-- C1 witness: the amended dedup bound at a concrete interleaving (one
history record and one well-formed buffering live event for the same
id). -/
theorem C1_catchup_dedup_witness :
    ((chime_complete_chat_setup 0
        ([Ins.hist recA, Ins.liveBuf wrapA].foldl insStep [])).1).countP
      (fun d => d.msgId == some "a") ≤ 1 :=
  C1_catchup_dedup 0 [Ins.hist recA, Ins.liveBuf wrapA] "a" (by
    intro n hn
    simp only [List.mem_cons, List.not_mem_nil, or_false] at hn
    rcases hn with hn | hn
    · cases hn
    · cases hn
      intro r id _ _
      exact Or.inl rfl)

/-- C2 (counterexample): the claim says the deduper's insert is
first-write-wins.  It is false: `g_hash_table_insert` replaces the stored
value on a duplicate key, so after inserting two records with id `"a"` the
table holds the second record, not the first. -/
theorem C2_counterexample :
    hashLookup (one_msg_cb (one_msg_cb [] nA1) nA2) "a" = some nA2 ∧ nA2 ≠ nA1 := by
  decide

/-- C2 (amended): the deduper's insert is last-write-wins: after inserting
a record whose `MessageId` is `id`, the table maps `id` to that record,
replacing any previously stored record with the same id (the first-stored
key string is kept). -/
theorem C2_last_write_wins (tbl : Table) (node : JsonNode) (id : String)
    (h : node.messageId = some id) :
    hashLookup (one_msg_cb tbl node) id = some node := by
  unfold one_msg_cb
  rw [h]
  exact hashLookup_insert tbl id node

/-- C2 witness: the last-write-wins property at a concrete insert. -/
theorem C2_last_write_wins_witness :
    hashLookup (one_msg_cb [] nA1) "a" = some nA1 :=
  C2_last_write_wins [] nA1 "a" rfl

/-- C3: the sequence of records the drain hands to `chat_deliver_msg`
(the sorted list built by `chime_complete_chat_setup`) is non-decreasing
in the parsed `CreatedOn` timestamp (seconds, then sub-second part), it
contains exactly the stored records whose `CreatedOn` parses (each exactly
once, as a permutation of the filtered table values, for every table-entry
order), and the drain's deliveries follow that list element by element. -/
theorem C3_drain_sorted_complete (now : Int) (tbl : Table) :
    (build_sorted tbl).Pairwise (fun a b =>
      a.tm.tv_sec < b.tm.tv_sec ∨
        (a.tm.tv_sec = b.tm.tv_sec ∧ a.tm.tv_usec ≤ b.tm.tv_usec)) ∧
    ((build_sorted tbl).map MsgSort.node).Perm
      ((tbl.map Prod.snd).filter parsableB) ∧
    (chime_complete_chat_setup now tbl).1 = drainFlat now (build_sorted tbl) := by
  refine ⟨?_, build_sorted_perm tbl, complete_setup_fst now tbl⟩
  exact (build_sorted_pairwise tbl).imp (fun h => (msLe_iff _ _).mp h)

/-- C4: on catch-up completion the watermark write is the `CreatedOn`
string of the last record of the drained sorted batch (which always exists
for a non-empty batch, every batch element having a parsable `CreatedOn`
by construction); an empty batch performs no watermark write. -/
theorem C4_watermark (now : Int) (tbl : Table) :
    (build_sorted tbl = [] → (chime_complete_chat_setup now tbl).2 = none) ∧
    (∀ l ms, build_sorted tbl = l ++ [ms] →
      (chime_complete_chat_setup now tbl).2 = ms.node.createdOn ∧
        ∃ s, ms.node.createdOn = some s) := by
  constructor
  · intro h
    rw [complete_setup_snd, h]
    rfl
  · intro l ms h
    refine ⟨by rw [complete_setup_snd, h, lastWatermark_append], ?_⟩
    have hmem : ms ∈ build_sorted tbl := by rw [h]; simp
    have htm := build_sorted_tm tbl ms hmem
    unfold parseCreatedOn at htm
    cases hc : ms.node.createdOn with
    | none => rw [hc] at htm; cases htm
    | some s => exact ⟨s, rfl⟩

/-- C4 witness: the watermark equation on a one-record table. -/
theorem C4_watermark_witness :
    (chime_complete_chat_setup 0 [("a", recA)]).2 = msA.node.createdOn ∧
      ∃ s, msA.node.createdOn = some s :=
  (C4_watermark 0 [("a", recA)]).2 [] msA (by decide)

/-- C5: after `chime_destroy_chat` completes on a session, the outstanding
history request is cancelled (the room leaves the pending set, so a later
page callback is suppressed), no `chat_msg_cb` subscription remains on the
room's channel, the session is removed from the room, and for every
subsequent event sequence that does not re-join the room, the room's chat
stays absent (so there is no messages table to write to) and no delivery
tagged with that room is ever produced.  Cancellation-suppression and the
unsubscribe matching are modelled from the spec (§4.3, §4.4), since
`chime_queue_http_request` and `chime_jugg_unsubscribe` are outside
`src/`. -/
theorem C5_teardown (now : Int) (cxn : Cxn) (rid : String) (room : Room) (s : Sess)
    (hfr : findRoom cxn.roomsById rid = some room) (hch : room.chat = some s)
    (evs : List CxnEv) (hevs : CxnEv.join (some rid) ∉ evs) :
    rid ∉ (chime_destroy_chat cxn rid).pending ∧
    (∀ sb ∈ (chime_destroy_chat cxn rid).subs, sb.1 ≠ room.channel) ∧
    findRoom (chime_destroy_chat cxn rid).roomsById rid = some ⟨room.channel, none⟩ ∧
    (∀ d ∈ (runTrace now (chime_destroy_chat cxn rid) evs).2, d.1 ≠ rid) ∧
    (∃ room2, findRoom (runTrace now (chime_destroy_chat cxn rid) evs).1.roomsById rid
      = some room2 ∧ room2.chat = none) := by
  have hde := destroy_eq hfr hch
  have hself : findRoom (chime_destroy_chat cxn rid).roomsById rid
      = some ⟨room.channel, none⟩ := by
    rw [hde]
    show findRoom (setChat cxn.roomsById rid none) rid = _
    rw [findRoom_setChat_self, hfr]
    rfl
  have hdead : deadRoom (chime_destroy_chat cxn rid).roomsById rid :=
    ⟨⟨room.channel, none⟩, hself, rfl⟩
  have htrace := runTrace_dead now evs _ hdead hevs
  refine ⟨?_, ?_, hself, htrace.2, htrace.1⟩
  · rw [hde]
    simp
  · intro sb hsb
    rw [hde] at hsb
    simp only [List.mem_filter, decide_not, Bool.not_eq_eq_eq_not, Bool.not_true,
      decide_eq_false_iff_not] at hsb
    exact hsb.2

/-- C5 witness: the teardown guarantees at a concrete joined session and a
concrete post-teardown event sequence (a live push event on the room's
channel followed by a history page for the room). -/
theorem C5_teardown_witness :
    ("R" ∉ (chime_destroy_chat ⟨[("R", ⟨"ch", some ⟨1, some []⟩⟩)],
        [(LiveKey.chatId 1, "R")], [("ch", "R")], ["R"], [], 1⟩ "R").pending) ∧
    (∀ sb ∈ (chime_destroy_chat ⟨[("R", ⟨"ch", some ⟨1, some []⟩⟩)],
        [(LiveKey.chatId 1, "R")], [("ch", "R")], ["R"], [], 1⟩ "R").subs,
      sb.1 ≠ "ch") ∧
    findRoom (chime_destroy_chat ⟨[("R", ⟨"ch", some ⟨1, some []⟩⟩)],
        [(LiveKey.chatId 1, "R")], [("ch", "R")], ["R"], [], 1⟩ "R").roomsById "R"
      = some ⟨"ch", none⟩ ∧
    (∀ d ∈ (runTrace 7 (chime_destroy_chat ⟨[("R", ⟨"ch", some ⟨1, some []⟩⟩)],
        [(LiveKey.chatId 1, "R")], [("ch", "R")], ["R"], [], 1⟩ "R")
        [CxnEv.jugg "ch" wrapA, CxnEv.page "R" [recA] none]).2, d.1 ≠ "R") ∧
    (∃ room2, findRoom (runTrace 7 (chime_destroy_chat ⟨[("R", ⟨"ch", some ⟨1, some []⟩⟩)],
        [(LiveKey.chatId 1, "R")], [("ch", "R")], ["R"], [], 1⟩ "R")
        [CxnEv.jugg "ch" wrapA, CxnEv.page "R" [recA] none]).1.roomsById "R"
      = some room2 ∧ room2.chat = none) :=
  C5_teardown 7 ⟨[("R", ⟨"ch", some ⟨1, some []⟩⟩)],
      [(LiveKey.chatId 1, "R")], [("ch", "R")], ["R"], [], 1⟩ "R"
    ⟨"ch", some ⟨1, some []⟩⟩ ⟨1, some []⟩ (by decide) rfl
    [CxnEv.jugg "ch" wrapA, CxnEv.page "R" [recA] none] (by decide)

/-- C6 (counterexample): the claim says requests issued with a continuation
token do not include the `after` parameter.  It is false:
`fetch_chat_messages` reads the stored watermark on every call and adds
`after` whenever it is non-empty, also when a continuation token is
present. -/
theorem C6_counterexample :
    ("after", "5") ∈ fetch_chat_messages_query (some "5") (some "tok") := by
  decide

/-- C6 (amended): the `after` (watermark) parameter is supplied on every
page request — first page and continuation pages alike — whenever a
non-empty watermark string is stored, and on no request when no watermark
is stored. -/
theorem C6_after_every_page (a : String) (tok : Option String) (h : a ≠ "") :
    ("after", a) ∈ fetch_chat_messages_query (some a) tok ∧
    (∀ x tok2, ("after", x) ∉ fetch_chat_messages_query none tok2) := by
  constructor
  · unfold fetch_chat_messages_query
    cases tok <;> simp [h]
  · intro x tok2
    unfold fetch_chat_messages_query
    cases tok2 <;> simp

/-- C6 witness: the amended statement at a concrete watermark and a
continuation token. -/
theorem C6_after_every_page_witness :
    ("after", "5") ∈ fetch_chat_messages_query (some "5") (some "tok") ∧
    (∀ x tok2, ("after", x) ∉ fetch_chat_messages_query none tok2) :=
  C6_after_every_page "5" (some "tok") (by decide)

/-- C7: a join request for an unknown room id, for a missing room id, or
for a room that already has an active chat returns with the connection
state completely unchanged: no session is created, nothing is allocated,
and the existing session (if any) is untouched. -/
theorem C7_single_session (cxn : Cxn) (rid : String)
    (h : findRoom cxn.roomsById rid = none ∨
      ∃ room, findRoom cxn.roomsById rid = some room ∧ room.chat ≠ none) :
    chime_purple_join_chat cxn (some rid) = cxn ∧
      chime_purple_join_chat cxn none = cxn := by
  refine ⟨?_, rfl⟩
  unfold chime_purple_join_chat
  dsimp only
  rcases h with h | ⟨room, hfr, hch⟩
  · rw [h]
  · rw [hfr]
    dsimp only
    cases hc : room.chat with
    | none => exact absurd hc hch
    | some s => rfl

/-- C7 witness: duplicate join (room already has a chat) and unknown-room
join are both no-ops on a concrete connection. -/
theorem C7_single_session_witness :
    chime_purple_join_chat ⟨[("R", ⟨"ch", some ⟨1, some []⟩⟩)], [], [], [], [], 1⟩
        (some "R") = ⟨[("R", ⟨"ch", some ⟨1, some []⟩⟩)], [], [], [], [], 1⟩ ∧
    chime_purple_join_chat ⟨[("R", ⟨"ch", some ⟨1, some []⟩⟩)], [], [], [], [], 1⟩
        none = ⟨[("R", ⟨"ch", some ⟨1, some []⟩⟩)], [], [], [], [], 1⟩ :=
  C7_single_session ⟨[("R", ⟨"ch", some ⟨1, some []⟩⟩)], [], [], [], [], 1⟩ "R"
    (Or.inr ⟨⟨"ch", some ⟨1, some []⟩⟩, by decide, by decide⟩)

/-- A connection with one known room `"R"` on channel `"ch-R"`, no chat:
the starting state of the C8 scenario. -/
def cxnC8 : Cxn := ⟨[("R", ⟨"ch-R", none⟩)], [], [], [], [], 0⟩

/-- C8 (code-bug evaluation): joining room `"R"` and leaving before any
history page resolves cancels the fetch (`pending` is empty), removes the
session from the room, delivers nothing and writes no watermark — but the
`live_chats` entry survives: `chime_purple_join_chat` registers the session
under the key `GUINT_TO_POINTER(chat_id)` while `chime_destroy_chat`
removes the key `GUINT_TO_POINTER(room->id)`, which is the room-id string
pointer and never the chat-id counter, so the registry still holds the
dead session's entry afterwards, contradicting the claimed removal. -/
theorem C8_live_chats_not_removed :
    (chime_purple_chat_leave (chime_purple_join_chat cxnC8 (some "R")) 1).pending = [] ∧
    findRoom (chime_purple_chat_leave
        (chime_purple_join_chat cxnC8 (some "R")) 1).roomsById "R"
      = some ⟨"ch-R", none⟩ ∧
    (chime_purple_chat_leave (chime_purple_join_chat cxnC8 (some "R")) 1).watermarks = [] ∧
    (runTrace 0 cxnC8 [CxnEv.join (some "R"), CxnEv.leave 1]).2 = [] ∧
    (chime_purple_chat_leave (chime_purple_join_chat cxnC8 (some "R")) 1).liveChats
      = [(LiveKey.chatId 1, "R")] := by
  decide

/-- C9: a record without a `MessageId` is never stored in the messages
table, neither by `one_msg_cb` (history page path) nor by the buffering
branch of `chat_msg_cb` (live path); and a stored record whose `CreatedOn`
is missing or unparsable is dropped from the ordered catch-up delivery
without affecting the rest of the batch: the drain still hands over exactly
the parsable records, sorted, element by element. -/
theorem C9_malformed (now : Int) :
    (∀ tbl node, node.messageId = none → one_msg_cb tbl node = tbl) ∧
    (∀ tbl r node, JsonRec.messageId r = none → bufferInsert tbl r node = tbl) ∧
    (∀ tbl : Table,
      (build_sorted tbl).Pairwise msLe ∧
      ((build_sorted tbl).map MsgSort.node).Perm ((tbl.map Prod.snd).filter parsableB) ∧
      (chime_complete_chat_setup now tbl).1 = drainFlat now (build_sorted tbl)) := by
  refine ⟨?_, ?_, fun tbl =>
    ⟨build_sorted_pairwise tbl, build_sorted_perm tbl, complete_setup_fst now tbl⟩⟩
  · intro tbl node h
    unfold one_msg_cb
    rw [h]
  · intro tbl r node h
    unfold bufferInsert
    rw [h]

/-- C9 witness: both malformed-record drops at concrete records. -/
theorem C9_malformed_witness :
    one_msg_cb [] noId = [] ∧ bufferInsert [] ⟨none, none, none⟩ noId = [] :=
  ⟨(C9_malformed 0).1 [] noId rfl, (C9_malformed 0).2.1 [] ⟨none, none, none⟩ noId rfl⟩

/-- C10: a record with no `Content` member produces no delivery — neither
when the drain passes it to `chat_deliver_msg` during catch-up nor in live
mode (`chat_msg_cb` delivers through the same `chat_deliver_msg`) — yet
when such a record is the last element of the sorted catch-up batch, the
drain still persists its `CreatedOn` string as the watermark: the
persisted watermark can come from a record that was never delivered. -/
theorem C10_contentless (now : Int) :
    (∀ node t, JsonNode.content node = none → chat_deliver_msg now node t = []) ∧
    (∀ (l : List MsgSort) (ms : MsgSort), ms.node.content = none →
      (drain now (l ++ [ms])).1 = (drain now l).1 ∧
      (drain now (l ++ [ms])).2 = ms.node.createdOn) := by
  have hdel : ∀ node t, JsonNode.content node = none → chat_deliver_msg now node t = [] := by
    intro node t h
    simp [chat_deliver_msg, h]
  refine ⟨hdel, ?_⟩
  intro l ms h
  rw [drain_eq, drain_eq]
  refine ⟨?_, lastWatermark_append l ms⟩
  show drainFlat now (l ++ [ms]) = drainFlat now l
  rw [drainFlat_append]
  have : drainFlat now [ms] = [] := by
    show chat_deliver_msg now ms.node ms.tm.tv_sec ++ drainFlat now [] = []
    rw [hdel ms.node _ h]
    rfl
  rw [this, List.append_nil]

/-- C10 witness: a content-less record at the end of a batch yields no
delivery but still supplies the watermark. -/
theorem C10_contentless_witness :
    chat_deliver_msg 0 (⟨some "b", some "5", none, none⟩ : JsonNode) 5 = [] ∧
    (drain 0 ([msA] ++ [msB])).1 = (drain 0 [msA]).1 ∧
    (drain 0 ([msA] ++ [msB])).2 = msB.node.createdOn :=
  ⟨(C10_contentless 0).1 _ 5 rfl,
   ((C10_contentless 0).2 [msA] msB rfl).1,
   ((C10_contentless 0).2 [msA] msB rfl).2⟩
